import Mathlib

/-!
Shallow embedding of `app.py` (Garmin FIT heart-rate dashboard).

Numeric values (Python/numpy floats, heart-rate samples) are modelled as
exact rationals `ℚ`; a missing value (Python `None` / float NaN) is
`Option.none`.  Fallible Python code (code that can raise) returns
`Except Unit _`.
-/

namespace FitApp

/-- Python `int(x)` on a float: truncation toward zero. -/
def trunc (q : ℚ) : ℤ := if 0 ≤ q then ⌊q⌋ else ⌈q⌉

/-- Python `round` to the nearest integer, ties to even (banker's rounding). -/
def roundHalfEven (q : ℚ) : ℤ :=
  if q - (⌊q⌋ : ℚ) < 1/2 then ⌊q⌋
  else if (1:ℚ)/2 < q - (⌊q⌋ : ℚ) then ⌊q⌋ + 1
  else if ⌊q⌋ % 2 = 0 then ⌊q⌋ else ⌊q⌋ + 1

/-- Python `round(x, 1)`: round to one decimal place. -/
def pyRound1 (q : ℚ) : ℚ := (roundHalfEven (10 * q) : ℚ) / 10

/-- numpy sorts the data before computing a percentile; only the sorted
value sequence matters, modelled with insertion sort. -/
def sortQ (l : List ℚ) : List ℚ := List.insertionSort (fun a b => a ≤ b) l

/-- Linear interpolation at virtual index `h` into the sorted data `s`,
as in `np.percentile` (default "linear" method): lower index `⌊h⌋`,
upper index `⌊h⌋ + 1` clamped to the last position, fraction `h - ⌊h⌋`. -/
def ipol (s : List ℚ) (h : ℚ) : ℚ :=
  s.getD (⌊h⌋).toNat 0 +
    (h - (⌊h⌋ : ℚ)) *
      (s.getD (min ((⌊h⌋).toNat + 1) (s.length - 1)) 0 - s.getD (⌊h⌋).toNat 0)

/-- `np.percentile(a, p)` on NaN-free data: virtual index `(n-1) * p/100`
into the sorted data. -/
def percentileLinear (l : List ℚ) (p : ℚ) : ℚ :=
  ipol (sortQ l) (((l.length : ℚ) - 1) * (p / 100))

/-- `pandas.Series.mean()`: skips missing values; the mean of no values
is NaN (`none`). -/
def seriesMean (s : List (Option ℚ)) : Option ℚ :=
  if (s.filterMap id).length = 0 then none
  else some ((s.filterMap id).sum / ((s.filterMap id).length : ℚ))

/-- `pandas.Series.min()`: minimum over the non-missing values, NaN if none. -/
def seriesMin (s : List (Option ℚ)) : Option ℚ := (s.filterMap id).min?

/-- `pandas.Series.max()`: maximum over the non-missing values, NaN if none. -/
def seriesMax (s : List (Option ℚ)) : Option ℚ := (s.filterMap id).max?

/-- `np.percentile(a, p)`: a missing value (NaN) in the input propagates to a
NaN result; empty input raises, which also surfaces as a non-value here. -/
def npPercentile (s : List (Option ℚ)) (p : ℚ) : Option ℚ :=
  if s.any (fun o => o.isNone) then none
  else if s.length = 0 then none
  else some (percentileLinear (s.filterMap id) p)

/-- Python `int()` applied to a possibly-NaN float: `int(NaN)` raises. -/
def intOfFloat : Option ℚ → Except Unit ℤ
  | none => Except.error ()
  | some q => Except.ok (trunc q)

/-- The six summary values of `calculate_metrics` (app.py lines 33-40). -/
structure Metrics where
  avgHR : Option ℚ
  minHR : ℤ
  maxHR : ℤ
  q1 : ℤ
  medianHR : ℤ
  q3 : ℤ
deriving DecidableEq, Repr

/-- `calculate_metrics` (app.py lines 31-41): builds the metrics dict; any
raise inside (e.g. `int(NaN)`) propagates as an error. -/
def calculate_metrics (hr_data : List (Option ℚ)) : Except Unit Metrics := do
  let avg := (seriesMean hr_data).map pyRound1
  let mn ← intOfFloat (seriesMin hr_data)
  let mx ← intOfFloat (seriesMax hr_data)
  let q1v ← intOfFloat (npPercentile hr_data 25)
  let medv ← intOfFloat (npPercentile hr_data 50)
  let q3v ← intOfFloat (npPercentile hr_data 75)
  pure ⟨avg, mn, mx, q1v, medv, q3v⟩

/-! ### Basic facts about the numeric helpers -/

theorem trunc_mono {q r : ℚ} (h : q ≤ r) : trunc q ≤ trunc r := by
  unfold trunc
  by_cases hq : 0 ≤ q
  · rw [if_pos hq, if_pos (le_trans hq h)]
    exact Int.floor_le_floor h
  · rw [if_neg hq]
    by_cases hr : 0 ≤ r
    · rw [if_pos hr]
      calc ⌈q⌉ ≤ ⌈(0:ℚ)⌉ := Int.ceil_le_ceil (le_of_lt (lt_of_not_le hq))
        _ = 0 := by simp
        _ ≤ ⌊r⌋ := by exact_mod_cast Int.le_floor.mpr (by exact_mod_cast hr)
    · rw [if_neg hr]
      exact Int.ceil_le_ceil h

theorem trunc_intCast (z : ℤ) : trunc (z : ℚ) = z := by
  unfold trunc
  by_cases h : 0 ≤ (z : ℚ) <;> simp [h]

theorem roundHalfEven_bounds (q : ℚ) : ⌊q⌋ ≤ roundHalfEven q ∧ roundHalfEven q ≤ ⌈q⌉ := by
  unfold roundHalfEven
  have hfc : (⌊q⌋ : ℚ) ≤ q := Int.floor_le q
  constructor
  · split
    · exact le_refl _
    · split
      · omega
      · split <;> omega
  · by_cases hz : q - (⌊q⌋ : ℚ) = 0
    · have hq : (⌊q⌋ : ℚ) = q := by linarith
      have hc : ⌈q⌉ = ⌊q⌋ := by rw [← hq]; simp
      rw [if_pos (by rw [hz]; norm_num), hc]
    · have hlt : (⌊q⌋ : ℚ) < q := lt_of_le_of_ne hfc (fun hh => hz (by rw [hh, sub_self]))
      have hcq : (⌊q⌋ : ℚ) < (⌈q⌉ : ℚ) := lt_of_lt_of_le hlt (Int.le_ceil q)
      have hc : ⌊q⌋ + 1 ≤ ⌈q⌉ := by
        have hzz : ⌊q⌋ < ⌈q⌉ := by exact_mod_cast hcq
        omega
      split
      · omega
      · split
        · omega
        · split <;> omega

theorem pyRound1_bounds {lo hi : ℤ} {q : ℚ} (h1 : (lo : ℚ) ≤ q) (h2 : q ≤ (hi : ℚ)) :
    (lo : ℚ) ≤ pyRound1 q ∧ pyRound1 q ≤ (hi : ℚ) := by
  unfold pyRound1
  obtain ⟨hl, hr⟩ := roundHalfEven_bounds (10 * q)
  have h10 : (10 * lo : ℤ) ≤ ⌊10 * q⌋ := by
    rw [Int.le_floor]; push_cast; linarith
  have h11 : ⌈10 * q⌉ ≤ (10 * hi : ℤ) := by
    rw [Int.ceil_le]; push_cast; linarith
  constructor
  · have h3 : (10 * lo : ℤ) ≤ roundHalfEven (10 * q) := le_trans h10 hl
    rw [le_div_iff₀ (by norm_num : (0:ℚ) < 10)]
    calc (lo : ℚ) * 10 = ((10 * lo : ℤ) : ℚ) := by push_cast; ring
      _ ≤ (roundHalfEven (10 * q) : ℚ) := by exact_mod_cast h3
  · have h4 : roundHalfEven (10 * q) ≤ (10 * hi : ℤ) := le_trans hr h11
    rw [div_le_iff₀ (by norm_num : (0:ℚ) < 10)]
    calc (roundHalfEven (10 * q) : ℚ) ≤ ((10 * hi : ℤ) : ℚ) := by exact_mod_cast h4
      _ = (hi : ℚ) * 10 := by push_cast; ring

/-! ### Facts about the sorted data -/

theorem sortQ_sorted (l : List ℚ) : List.Sorted (· ≤ ·) (sortQ l) :=
  List.sorted_insertionSort _ l

theorem sortQ_perm (l : List ℚ) : List.Perm (sortQ l) l :=
  List.perm_insertionSort _ l

theorem sortQ_length (l : List ℚ) : (sortQ l).length = l.length :=
  (sortQ_perm l).length_eq

theorem sortQ_mem {l : List ℚ} {x : ℚ} (h : x ∈ sortQ l) : x ∈ l :=
  (sortQ_perm l).mem_iff.mp h

theorem sorted_getD_mono {s : List ℚ} (hs : List.Sorted (· ≤ ·) s) {i j : ℕ}
    (hij : i ≤ j) (hj : j < s.length) : s.getD i 0 ≤ s.getD j 0 := by
  have hi : i < s.length := lt_of_le_of_lt hij hj
  have h2 : s.get ⟨i, hi⟩ ≤ s.get ⟨j, hj⟩ :=
    List.Sorted.rel_get_of_le hs (by exact hij)
  have h3 : s[i] ≤ s[j] := by simpa [List.get_eq_getElem] using h2
  rw [List.getD_eq_getElem s 0 hi, List.getD_eq_getElem s 0 hj]
  exact h3

theorem getD_mem {s : List ℚ} {i : ℕ} (hi : i < s.length) : s.getD i 0 ∈ s := by
  rw [List.getD_eq_getElem _ _ hi]
  exact List.getElem_mem hi

theorem min?_spec {l : List ℚ} {a : ℚ} (h : l.min? = some a) :
    a ∈ l ∧ ∀ b ∈ l, a ≤ b := by
  haveI : Std.Antisymm ((· : ℚ) ≤ ·) := ⟨fun hab hba => le_antisymm hab hba⟩
  exact (List.min?_eq_some_iff (fun a => le_refl a) (fun a b => min_choice a b)
    (fun a b c => le_min_iff)).mp h

theorem max?_spec {l : List ℚ} {a : ℚ} (h : l.max? = some a) :
    a ∈ l ∧ ∀ b ∈ l, b ≤ a := by
  haveI : Std.Antisymm ((· : ℚ) ≤ ·) := ⟨fun hab hba => le_antisymm hab hba⟩
  exact (List.max?_eq_some_iff (fun a => le_refl a) (fun a b => max_choice a b)
    (fun a b c => max_le_iff)).mp h

/-! ### Bounds and monotonicity for the interpolation kernel -/

theorem ipol_index_facts {s : List ℚ} {h : ℚ} (hn : 0 < s.length)
    (h0 : 0 ≤ h) (h1 : h ≤ (s.length : ℚ) - 1) :
    (⌊h⌋).toNat ≤ s.length - 1 ∧ min ((⌊h⌋).toNat + 1) (s.length - 1) < s.length ∧
      (⌊h⌋).toNat ≤ min ((⌊h⌋).toNat + 1) (s.length - 1) := by
  have hf0 : 0 ≤ ⌊h⌋ := Int.le_floor.mpr (by exact_mod_cast h0)
  have hcast : ((s.length : ℤ) : ℚ) - 1 = (((s.length : ℤ) - 1 : ℤ) : ℚ) := by push_cast; ring
  have hfl : ⌊h⌋ ≤ (s.length : ℤ) - 1 := by
    have := Int.floor_le_floor h1
    rwa [show ((s.length : ℚ) - 1) = (((s.length : ℤ) - 1 : ℤ) : ℚ) by push_cast; ring,
      Int.floor_intCast] at this
  have hlo : (⌊h⌋).toNat ≤ s.length - 1 := by omega
  exact ⟨hlo, by omega, by omega⟩

theorem ipol_bounds {s : List ℚ} (hs : List.Sorted (· ≤ ·) s) {h : ℚ} (hn : 0 < s.length)
    (h0 : 0 ≤ h) (h1 : h ≤ (s.length : ℚ) - 1) :
    s.getD (⌊h⌋).toNat 0 ≤ ipol s h ∧
      ipol s h ≤ s.getD (min ((⌊h⌋).toNat + 1) (s.length - 1)) 0 := by
  obtain ⟨hlo, hhi, hlohi⟩ := ipol_index_facts hn h0 h1
  have hab : s.getD (⌊h⌋).toNat 0 ≤ s.getD (min ((⌊h⌋).toNat + 1) (s.length - 1)) 0 :=
    sorted_getD_mono hs hlohi hhi
  have hg0 : 0 ≤ h - (⌊h⌋ : ℚ) := sub_nonneg.mpr (Int.floor_le h)
  have hg1 : h - (⌊h⌋ : ℚ) ≤ 1 := by
    have := Int.lt_floor_add_one h
    linarith
  unfold ipol
  constructor
  · have hmul := mul_nonneg hg0 (sub_nonneg.mpr hab)
    linarith
  · nlinarith [mul_nonneg (sub_nonneg.mpr hg1) (sub_nonneg.mpr hab)]

theorem ipol_mono {s : List ℚ} (hs : List.Sorted (· ≤ ·) s) {h h' : ℚ} (hn : 0 < s.length)
    (h0 : 0 ≤ h) (hhh : h ≤ h') (h1 : h' ≤ (s.length : ℚ) - 1) :
    ipol s h ≤ ipol s h' := by
  have h0' : 0 ≤ h' := le_trans h0 hhh
  have h1h : h ≤ (s.length : ℚ) - 1 := le_trans hhh h1
  by_cases hfe : ⌊h⌋ = ⌊h'⌋
  · obtain ⟨hlo, hhi, hlohi⟩ := ipol_index_facts hn h0 h1h
    have hab : s.getD (⌊h⌋).toNat 0 ≤ s.getD (min ((⌊h⌋).toNat + 1) (s.length - 1)) 0 :=
      sorted_getD_mono hs hlohi hhi
    have hg : h - (⌊h⌋ : ℚ) ≤ h' - (⌊h⌋ : ℚ) := by linarith
    have hmul := mul_le_mul_of_nonneg_right hg (sub_nonneg.mpr hab)
    unfold ipol
    rw [← hfe]
    linarith
  · have hff : ⌊h⌋ < ⌊h'⌋ := lt_of_le_of_ne (Int.floor_le_floor hhh) hfe
    have hf0 : 0 ≤ ⌊h⌋ := Int.le_floor.mpr (by exact_mod_cast h0)
    obtain ⟨hlo, hhi, hlohi⟩ := ipol_index_facts hn h0 h1h
    obtain ⟨hlo', hhi', hlohi'⟩ := ipol_index_facts hn h0' h1
    have hle1 : ipol s h ≤ s.getD (min ((⌊h⌋).toNat + 1) (s.length - 1)) 0 :=
      (ipol_bounds hs hn h0 h1h).2
    have hle3 : s.getD (⌊h'⌋).toNat 0 ≤ ipol s h' := (ipol_bounds hs hn h0' h1).1
    have hmid : s.getD (min ((⌊h⌋).toNat + 1) (s.length - 1)) 0 ≤ s.getD (⌊h'⌋).toNat 0 := by
      apply sorted_getD_mono hs
      · have : (⌊h⌋).toNat + 1 ≤ (⌊h'⌋).toNat := by omega
        omega
      · omega
    linarith

/-! ### Percentile-level corollaries -/

theorem percentileLinear_le_percentileLinear {l : List ℚ} (hne : l ≠ []) {p q : ℚ}
    (hp0 : 0 ≤ p) (hpq : p ≤ q) (hq1 : q ≤ 100) :
    percentileLinear l p ≤ percentileLinear l q := by
  have hn : 0 < (sortQ l).length := by
    rw [sortQ_length]
    exact List.length_pos.mpr hne
  have hn1 : (1 : ℚ) ≤ (l.length : ℚ) := by
    have := List.length_pos.mpr hne
    exact_mod_cast this
  have hnn : (0 : ℚ) ≤ (l.length : ℚ) - 1 := by linarith
  unfold percentileLinear
  apply ipol_mono (sortQ_sorted l) hn
  · positivity
  · apply mul_le_mul_of_nonneg_left _ hnn
    apply div_le_div_of_nonneg_right hpq (by norm_num)
  · rw [sortQ_length]
    calc ((l.length : ℚ) - 1) * (q / 100) ≤ ((l.length : ℚ) - 1) * 1 := by
          apply mul_le_mul_of_nonneg_left _ hnn
          rw [div_le_one (by norm_num)]
          exact hq1
      _ = (l.length : ℚ) - 1 := by ring

theorem percentileLinear_bounds {l : List ℚ} (hne : l ≠ []) {p : ℚ}
    (hp0 : 0 ≤ p) (hp1 : p ≤ 100) :
    (∃ x ∈ l, x ≤ percentileLinear l p) ∧ ∃ y ∈ l, percentileLinear l p ≤ y := by
  have hn : 0 < (sortQ l).length := by
    rw [sortQ_length]
    exact List.length_pos.mpr hne
  have hn1 : (1 : ℚ) ≤ (l.length : ℚ) := by
    have := List.length_pos.mpr hne
    exact_mod_cast this
  have hnn : (0 : ℚ) ≤ (l.length : ℚ) - 1 := by linarith
  have h0 : 0 ≤ ((l.length : ℚ) - 1) * (p / 100) := by positivity
  have h1 : ((l.length : ℚ) - 1) * (p / 100) ≤ ((sortQ l).length : ℚ) - 1 := by
    rw [sortQ_length]
    calc ((l.length : ℚ) - 1) * (p / 100) ≤ ((l.length : ℚ) - 1) * 1 := by
          apply mul_le_mul_of_nonneg_left _ hnn
          rw [div_le_one (by norm_num)]
          exact hp1
      _ = (l.length : ℚ) - 1 := by ring
  obtain ⟨hlo, hhi, hlohi⟩ := ipol_index_facts hn h0 h1
  obtain ⟨hb1, hb2⟩ := ipol_bounds (sortQ_sorted l) hn h0 h1
  refine ⟨⟨_, sortQ_mem (getD_mem (lt_of_le_of_lt hlohi hhi)), hb1⟩,
    ⟨_, sortQ_mem (getD_mem hhi), hb2⟩⟩

/-! ### Reduction of the series operations on fully-present data -/

theorem filterMap_id_map_some (l : List ℚ) : (l.map some).filterMap id = l := by
  simp

theorem seriesMean_map_some {l : List ℚ} (hne : l ≠ []) :
    seriesMean (l.map some) = some (l.sum / (l.length : ℚ)) := by
  unfold seriesMean
  rw [filterMap_id_map_some]
  rw [if_neg (by simpa using hne)]

theorem seriesMin_map_some (l : List ℚ) : seriesMin (l.map some) = l.min? := by
  unfold seriesMin
  rw [filterMap_id_map_some]

theorem seriesMax_map_some (l : List ℚ) : seriesMax (l.map some) = l.max? := by
  unfold seriesMax
  rw [filterMap_id_map_some]

theorem npPercentile_map_some {l : List ℚ} (hne : l ≠ []) (p : ℚ) :
    npPercentile (l.map some) p = some (percentileLinear l p) := by
  unfold npPercentile
  rw [filterMap_id_map_some]
  rw [if_neg (by simp), if_neg (by simpa using hne)]

theorem min?_isSome {l : List ℚ} (hne : l ≠ []) : ∃ a, l.min? = some a := by
  cases h : l.min? with
  | none => exact absurd (List.min?_eq_none_iff.mp h) hne
  | some a => exact ⟨a, rfl⟩

theorem max?_isSome {l : List ℚ} (hne : l ≠ []) : ∃ a, l.max? = some a := by
  cases h : l.max? with
  | none => exact absurd (List.max?_eq_none_iff.mp h) hne
  | some a => exact ⟨a, rfl⟩

theorem mean_bounds {l : List ℚ} {a b : ℚ} (hne : l ≠ [])
    (ha : ∀ x ∈ l, a ≤ x) (hb : ∀ x ∈ l, x ≤ b) :
    a ≤ l.sum / (l.length : ℚ) ∧ l.sum / (l.length : ℚ) ≤ b := by
  have hlen : 0 < (l.length : ℚ) := by
    exact_mod_cast List.length_pos.mpr hne
  have h1 : (l.length : ℚ) * a ≤ l.sum := by
    have := List.card_nsmul_le_sum l a ha
    rwa [nsmul_eq_mul] at this
  have h2 : l.sum ≤ (l.length : ℚ) * b := by
    have := List.sum_le_card_nsmul l b hb
    rwa [nsmul_eq_mul] at this
  constructor
  · rw [le_div_iff₀ hlen]; linarith
  · rw [div_le_iff₀ hlen]; linarith

/-- Normal form of `calculate_metrics` on a non-empty, fully-present
heart-rate column. -/
theorem calculate_metrics_map_some {l : List ℚ} {a b : ℚ}
    (ha : l.min? = some a) (hb : l.max? = some b) :
    calculate_metrics (l.map some) = Except.ok
      { avgHR := some (pyRound1 (l.sum / (l.length : ℚ))), minHR := trunc a, maxHR := trunc b,
        q1 := trunc (percentileLinear l 25), medianHR := trunc (percentileLinear l 50),
        q3 := trunc (percentileLinear l 75) } := by
  have hne : l ≠ [] := by
    intro h
    rw [h] at ha
    simp at ha
  unfold calculate_metrics
  rw [seriesMean_map_some hne, seriesMin_map_some, seriesMax_map_some, ha, hb,
    npPercentile_map_some hne 25, npPercentile_map_some hne 50, npPercentile_map_some hne 75]
  rfl

/-! ### The sorted list's first and last entries are the extrema -/

theorem sortQ_getD_zero {l : List ℚ} {a : ℚ} (ha : l.min? = some a) :
    (sortQ l).getD 0 0 = a := by
  obtain ⟨hmem, hle⟩ := min?_spec ha
  have hne : l ≠ [] := List.ne_nil_of_mem hmem
  have hn : 0 < (sortQ l).length := by
    rw [sortQ_length]
    exact List.length_pos.mpr hne
  apply le_antisymm
  · obtain ⟨i, hia⟩ := List.mem_iff_get.mp ((sortQ_perm l).mem_iff.mpr hmem)
    calc (sortQ l).getD 0 0 ≤ (sortQ l).getD i.val 0 :=
          sorted_getD_mono (sortQ_sorted l) (Nat.zero_le _) i.isLt
      _ = a := by
          rw [List.getD_eq_getElem _ _ i.isLt, ← hia, List.get_eq_getElem]
  · exact hle _ (sortQ_mem (getD_mem hn))

theorem sortQ_getD_last {l : List ℚ} {b : ℚ} (hb : l.max? = some b) :
    (sortQ l).getD (l.length - 1) 0 = b := by
  obtain ⟨hmem, hle⟩ := max?_spec hb
  have hne : l ≠ [] := List.ne_nil_of_mem hmem
  have hpos : 0 < l.length := List.length_pos.mpr hne
  have hlast : l.length - 1 < (sortQ l).length := by
    rw [sortQ_length]
    omega
  apply le_antisymm
  · exact hle _ (sortQ_mem (getD_mem hlast))
  · obtain ⟨i, hia⟩ := List.mem_iff_get.mp ((sortQ_perm l).mem_iff.mpr hmem)
    have hi : i.val ≤ l.length - 1 := by
      have h3 := i.isLt
      have h4 : (sortQ l).length = l.length := sortQ_length l
      omega
    calc b = (sortQ l).getD i.val 0 := by
          rw [List.getD_eq_getElem _ _ i.isLt, ← hia, List.get_eq_getElem]
      _ ≤ (sortQ l).getD (l.length - 1) 0 := sorted_getD_mono (sortQ_sorted l) hi hlast

/-! ### Spec-side statement of the percentile computation

`rankInterp` is written from the specification's words ("25th/50th/75th
percentile using linear interpolation between closest ranks"): the virtual
rank `h = (n-1)·p/100` lies between the closest integer ranks `⌊h⌋` and
`⌈h⌉` of the sorted data, and the result mixes the two entries with weights
`1 - (h - ⌊h⌋)` and `h - ⌊h⌋`.  It is compared against the code-derived
`percentileLinear` below. -/

def rankInterp (l : List ℚ) (p : ℚ) : ℚ :=
  (1 - (((l.length : ℚ) - 1) * (p / 100) - (⌊((l.length : ℚ) - 1) * (p / 100)⌋ : ℚ))) *
      (sortQ l).getD (⌊((l.length : ℚ) - 1) * (p / 100)⌋).toNat 0 +
    (((l.length : ℚ) - 1) * (p / 100) - (⌊((l.length : ℚ) - 1) * (p / 100)⌋ : ℚ)) *
      (sortQ l).getD (⌈((l.length : ℚ) - 1) * (p / 100)⌉).toNat 0

/-- Spec-side metrics record (§4.2): mean rounded to one decimal place,
integer-truncated extrema (first and last entries of the sorted data), and
integer-truncated rank-interpolated percentiles. -/
def specMetrics (l : List ℚ) : Metrics :=
  { avgHR := some (pyRound1 (l.sum / (l.length : ℚ)))
    minHR := trunc ((sortQ l).getD 0 0)
    maxHR := trunc ((sortQ l).getD (l.length - 1) 0)
    q1 := trunc (rankInterp l 25)
    medianHR := trunc (rankInterp l 50)
    q3 := trunc (rankInterp l 75) }

theorem percentileLinear_eq_rankInterp {l : List ℚ} (hne : l ≠ []) {p : ℚ}
    (hp0 : 0 ≤ p) (hp1 : p ≤ 100) : percentileLinear l p = rankInterp l p := by
  have hn1 : (1 : ℚ) ≤ (l.length : ℚ) := by
    exact_mod_cast List.length_pos.mpr hne
  unfold percentileLinear rankInterp ipol
  set h : ℚ := ((l.length : ℚ) - 1) * (p / 100) with hdef
  have h0 : 0 ≤ h := mul_nonneg (by linarith) (by positivity)
  have h1 : h ≤ (l.length : ℚ) - 1 := by
    calc h ≤ ((l.length : ℚ) - 1) * 1 := by
          apply mul_le_mul_of_nonneg_left _ (by linarith)
          rw [div_le_one (by norm_num)]
          exact hp1
      _ = (l.length : ℚ) - 1 := by ring
  have hfl0 : 0 ≤ ⌊h⌋ := Int.le_floor.mpr (by exact_mod_cast h0)
  have hfl1 : ⌊h⌋ ≤ (l.length : ℤ) - 1 := by
    have := Int.floor_le_floor h1
    rwa [show ((l.length : ℚ) - 1) = (((l.length : ℤ) - 1 : ℤ) : ℚ) by push_cast; ring,
      Int.floor_intCast] at this
  by_cases hint : h = (⌊h⌋ : ℚ)
  · have hg : h - (⌊h⌋ : ℚ) = 0 := by rw [← hint] at *; linarith
    have hceil : ⌈h⌉ = ⌊h⌋ := by
      rw [hint]
      simp
    rw [hceil, hg]
    ring
  · have hlt : (⌊h⌋ : ℚ) < h := lt_of_le_of_ne (Int.floor_le h) (fun e => hint e.symm)
    have hceil : ⌈h⌉ = ⌊h⌋ + 1 := by
      apply le_antisymm
      · apply Int.ceil_le.mpr
        push_cast
        linarith [Int.lt_floor_add_one h]
      · exact Int.add_one_le_ceil_iff.mpr hlt
    have hstrict : ⌊h⌋ + 1 ≤ (l.length : ℤ) - 1 := by
      rcases lt_or_eq_of_le hfl1 with hlt2 | heq
      · omega
      · exfalso
        have hup : h ≤ (⌊h⌋ : ℚ) := by
          rw [heq]
          push_cast
          linarith
        linarith
    have hlen : 0 < l.length := List.length_pos.mpr hne
    have hmin : min ((⌊h⌋).toNat + 1) ((sortQ l).length - 1) = (⌊h⌋).toNat + 1 := by
      rw [sortQ_length]
      omega
    have htn : (⌈h⌉).toNat = (⌊h⌋).toNat + 1 := by
      rw [hceil]
      omega
    rw [hmin, htn]
    ring

/-! ### Claim theorems -/

/-- C1 (amended): for every non-empty, fully-present numeric heart-rate
column, the six values returned by `calculate_metrics` satisfy
`minimum ≤ Q1 ≤ median ≤ Q3 ≤ maximum`; and whenever in addition every
heart-rate value is an integer (as decoded heart rates are),
`minimum ≤ average ≤ maximum` holds as well.  (Without the integrality
assumption the average part fails, see the counterexample.) -/
theorem metrics_order (hr : List ℚ) (hne : hr ≠ []) :
    ∃ m : Metrics,
      calculate_metrics (hr.map some) = Except.ok m ∧
      m.minHR ≤ m.q1 ∧ m.q1 ≤ m.medianHR ∧ m.medianHR ≤ m.q3 ∧ m.q3 ≤ m.maxHR ∧
      ((∀ q ∈ hr, ∃ z : ℤ, q = (z : ℚ)) →
        ∃ av : ℚ, m.avgHR = some av ∧ (m.minHR : ℚ) ≤ av ∧ av ≤ (m.maxHR : ℚ)) := by
  obtain ⟨a, ha⟩ := min?_isSome hne
  obtain ⟨b, hb⟩ := max?_isSome hne
  obtain ⟨hamem, hale⟩ := min?_spec ha
  obtain ⟨hbmem, hble⟩ := max?_spec hb
  refine ⟨_, calculate_metrics_map_some ha hb, ?_, ?_, ?_, ?_, ?_⟩
  · obtain ⟨⟨x, hx, hxle⟩, _⟩ :=
      @percentileLinear_bounds hr hne 25 (by norm_num) (by norm_num)
    exact trunc_mono (le_trans (hale x hx) hxle)
  · exact trunc_mono
      (percentileLinear_le_percentileLinear hne (by norm_num) (by norm_num) (by norm_num))
  · exact trunc_mono
      (percentileLinear_le_percentileLinear hne (by norm_num) (by norm_num) (by norm_num))
  · obtain ⟨_, ⟨y, hy, hley⟩⟩ :=
      @percentileLinear_bounds hr hne 75 (by norm_num) (by norm_num)
    exact trunc_mono (le_trans hley (hble y hy))
  · intro hintegral
    obtain ⟨za, hza⟩ := hintegral a hamem
    obtain ⟨zb, hzb⟩ := hintegral b hbmem
    obtain ⟨hm1, hm2⟩ := mean_bounds hne hale hble
    have hb1 : (za : ℚ) ≤ hr.sum / (hr.length : ℚ) := by rw [← hza]; exact hm1
    have hb2 : hr.sum / (hr.length : ℚ) ≤ (zb : ℚ) := by rw [← hzb]; exact hm2
    refine ⟨_, rfl, ?_, ?_⟩
    · show (trunc a : ℚ) ≤ pyRound1 (hr.sum / (hr.length : ℚ))
      rw [hza, trunc_intCast]
      exact (pyRound1_bounds hb1 hb2).1
    · show pyRound1 (hr.sum / (hr.length : ℚ)) ≤ (trunc b : ℚ)
      rw [hzb, trunc_intCast]
      exact (pyRound1_bounds hb1 hb2).2

/-- Witness for C1 (amended), at the column `[60, 70, 80, 90, 100]`. -/
theorem metrics_order_witness :
    ([(60 : ℚ), 70, 80, 90, 100] ≠ []) ∧
      ∃ m : Metrics,
        calculate_metrics ([(60 : ℚ), 70, 80, 90, 100].map some) = Except.ok m ∧
        m.minHR ≤ m.q1 ∧ m.q1 ≤ m.medianHR ∧ m.medianHR ≤ m.q3 ∧ m.q3 ≤ m.maxHR ∧
        ((∀ q ∈ [(60 : ℚ), 70, 80, 90, 100], ∃ z : ℤ, q = (z : ℚ)) →
          ∃ av : ℚ, m.avgHR = some av ∧ (m.minHR : ℚ) ≤ av ∧ av ≤ (m.maxHR : ℚ)) :=
  ⟨by simp, metrics_order [60, 70, 80, 90, 100] (by simp)⟩

/-- C1 counterexample: on the non-empty numeric heart-rate column `[60.7]`
the code returns average `60.7` and maximum `int(60.7) = 60`, so the claimed
`average ≤ maximum` fails for the returned (rounded/truncated) values. -/
theorem metrics_order_cex :
    calculate_metrics [some ((607 : ℚ) / 10)] = Except.ok
        { avgHR := some ((607 : ℚ) / 10), minHR := 60, maxHR := 60,
          q1 := 60, medianHR := 60, q3 := 60 } ∧
      ¬ ((607 : ℚ) / 10 ≤ ((60 : ℤ) : ℚ)) := by
  constructor
  · have hfl : ⌊(607 : ℚ) / 10⌋ = 60 := by
      rw [Int.floor_eq_iff]
      norm_num
    have h607 : ⌊(607 : ℚ)⌋ = 607 := by
      rw [Int.floor_eq_iff]
      norm_num
    have ha : [(607 : ℚ) / 10].min? = some ((607 : ℚ) / 10) := rfl
    have hbx : [(607 : ℚ) / 10].max? = some ((607 : ℚ) / 10) := rfl
    show calculate_metrics ([(607 : ℚ) / 10].map some) = _
    rw [calculate_metrics_map_some ha hbx]
    have hs : sortQ [(607 : ℚ) / 10] = [(607 : ℚ) / 10] := rfl
    norm_num [percentileLinear, ipol, hs, pyRound1, roundHalfEven, trunc, hfl, h607]
  · norm_num

/-- C4: on every non-empty, fully-present numeric heart-rate column,
`calculate_metrics` returns exactly the spec-side record: the arithmetic
mean rounded to one decimal place, the integer-truncated exact extrema, and
the integer-truncated 25th/50th/75th percentiles computed by linear
interpolation between closest ranks of the sorted data. -/
theorem calculate_metrics_refines_spec (hr : List ℚ) (hne : hr ≠ []) :
    calculate_metrics (hr.map some) = Except.ok (specMetrics hr) := by
  obtain ⟨a, ha⟩ := min?_isSome hne
  obtain ⟨b, hb⟩ := max?_isSome hne
  rw [calculate_metrics_map_some ha hb]
  unfold specMetrics
  rw [sortQ_getD_zero ha, sortQ_getD_last hb,
    percentileLinear_eq_rankInterp hne (by norm_num) (by norm_num),
    percentileLinear_eq_rankInterp hne (by norm_num) (by norm_num),
    percentileLinear_eq_rankInterp hne (by norm_num) (by norm_num)]

/-- Witness for C4, at the column `[3, 1, 2]`. -/
theorem calculate_metrics_refines_spec_witness :
    ([(3 : ℚ), 1, 2] ≠ []) ∧
      calculate_metrics ([(3 : ℚ), 1, 2].map some) = Except.ok (specMetrics [(3 : ℚ), 1, 2]) :=
  ⟨by simp, calculate_metrics_refines_spec [3, 1, 2] (by simp)⟩

/-- C5: on the heart-rate column `[60, 70, 80, 90, 100]` the calculator
returns average `80.0`, minimum `60`, maximum `100`, Q1 `70`, median `80`
and Q3 `90`. -/
theorem metrics_on_sample :
    calculate_metrics ([(60 : ℚ), 70, 80, 90, 100].map some) =
      Except.ok
        { avgHR := some 80, minHR := 60, maxHR := 100,
          q1 := 70, medianHR := 80, q3 := 90 } := by
  have ha : [(60 : ℚ), 70, 80, 90, 100].min? = some 60 := rfl
  have hb : [(60 : ℚ), 70, 80, 90, 100].max? = some 100 := rfl
  rw [calculate_metrics_map_some ha hb]
  have hs : sortQ [(60 : ℚ), 70, 80, 90, 100] = [60, 70, 80, 90, 100] := rfl
  have h2 : Int.toNat 2 = 2 := rfl
  have h3 : Int.toNat 3 = 3 := rfl
  norm_num [percentileLinear, ipol, hs, pyRound1, roundHalfEven, trunc, Int.floor_ofNat, h2, h3]

/-! ## The loader (`load_fit_file`, app.py lines 11-29)

A decoded "record" message is the ordered list of its named fields
(`for record_data in record`); a field value is a number or `None`.
A row is the Python dict built from those fields. -/

/-- One field of a record message: `(record_data.name, record_data.value)`. -/
abbrev Field := String × Option ℚ

/-- One decoded record message: its fields in iteration order. -/
abbrev Msg := List Field

/-- A Python dict as an association list with unique keys in first-insertion
order.  `dictInsert d k v` is `d[k] = v`: overwrite the value at an existing
key (keeping its position), otherwise append the new binding. -/
def dictInsert (d : List Field) (k : String) (v : Option ℚ) : List Field :=
  if d.any (fun p => p.1 = k) then d.map (fun p => if p.1 = k then (k, v) else p)
  else d ++ [(k, v)]

/-- app.py lines 18-20: `record_dict[record_data.name] = record_data.value`
for each field of the message, in message order. -/
def buildRow (msg : Msg) : List Field :=
  msg.foldl (fun d p => dictInsert d p.1 p.2) []

/-- Cell lookup in a row: a key that is absent, or present with value
`None`, both read back as a missing value (NaN) in the table. -/
def rowCell (r : List Field) (k : String) : Option ℚ :=
  match r.find? (fun p => p.1 = k) with
  | some p => p.2
  | none => none

/-- Accumulate a column name, keeping first-appearance order. -/
def addKey (acc : List String) (k : String) : List String :=
  if k ∈ acc then acc else acc ++ [k]

/-- Column names of `pd.DataFrame(records)`: the union of the rows' keys in
first-appearance order. -/
def unionKeys (rows : List (List Field)) : List String :=
  rows.foldl (fun acc r => (r.map (fun p => p.1)).foldl addKey acc) []

/-- A pandas DataFrame, column-oriented: the columns in order, each a name
together with its cells (one per row, missing cells are `none`). -/
structure DataFrame where
  cols : List (String × List (Option ℚ))
deriving DecidableEq, Repr

def DataFrame.columns (df : DataFrame) : List String := df.cols.map (fun p => p.1)

def DataFrame.getCol (df : DataFrame) (c : String) : List (Option ℚ) :=
  match df.cols.find? (fun p => p.1 = c) with
  | some p => p.2
  | none => []

/-- `len(data)`: number of rows. -/
def DataFrame.nrows (df : DataFrame) : ℕ :=
  match df.cols with
  | [] => 0
  | p :: _ => p.2.length

/-- `data[c] = v`: overwrite an existing column or append a new one. -/
def DataFrame.setCol (df : DataFrame) (c : String) (v : List (Option ℚ)) : DataFrame :=
  if df.cols.any (fun p => p.1 = c) then
    ⟨df.cols.map (fun p => if p.1 = c then (c, v) else p)⟩
  else ⟨df.cols ++ [(c, v)]⟩

/-- `load_fit_file` (app.py lines 11-29): one row per "record" message, in
arrival order, assembled into a DataFrame.  `pd.to_datetime` on the
timestamp column is modelled as the identity on the already-numeric
time values. -/
def load_fit_file (msgs : List Msg) : DataFrame :=
  ⟨(unionKeys (msgs.map buildRow)).map
    (fun k => (k, (msgs.map buildRow).map (fun r => rowCell r k)))⟩

/-! ## The presentation shell (`main`, app.py lines 43-154) -/

/-- The time-series line chart (app.py lines 89-103): which column provides
the x-axis, its values, and the x-axis title of the final layout. -/
structure LineChart where
  xCol : String
  xValues : List (Option ℚ)
  xaxisTitle : String
deriving DecidableEq, Repr

/-- app.py lines 80-103: use `timestamp` as the x-axis when that column is
present, otherwise add a `point_index` column `0..n-1` to `data` and use
it; the (possibly mutated) frame is returned alongside the chart. -/
def buildLineChart (data : DataFrame) : LineChart × DataFrame :=
  if "timestamp" ∈ data.columns then
    ({ xCol := "timestamp", xValues := data.getCol "timestamp", xaxisTitle := "Time" }, data)
  else
    ({ xCol := "point_index",
       xValues := (List.range data.nrows).map (fun i => some (i : ℚ)),
       xaxisTitle := "Data Points" },
     data.setCol "point_index" ((List.range data.nrows).map (fun i => some (i : ℚ))))

/-- Result of one render cycle of `main`. -/
inductive Outcome where
  | crashed : Outcome
  | noData : Outcome
  | noSampleFiles : Outcome
  | noHeartRate : Outcome
  | rendered : LineChart → Metrics → Option DataFrame → Outcome
deriving DecidableEq

/-- app.py lines 76-154: when a `heart_rate` column exists, build the
time-series chart (possibly mutating `data`), compute the metrics from the
`heart_rate` column of the frame as it then stands, and show the raw table
(line 151) if requested — the raw display shows `data` as it is at that
point, i.e. after the possible `point_index` mutation.  An exception from
`calculate_metrics` (line 108) aborts the cycle.  Without a `heart_rate`
column, line 154 shows the "No heart rate data found" message. -/
def render (data : DataFrame) (show_raw : Bool) : Outcome :=
  if "heart_rate" ∈ data.columns then
    match calculate_metrics ((buildLineChart data).2.getCol "heart_rate") with
    | Except.error _ => Outcome.crashed
    | Except.ok m =>
        Outcome.rendered (buildLineChart data).1 m
          (if show_raw then some (buildLineChart data).2 else none)
  else Outcome.noHeartRate

/-- Python `f.endswith(".fit")` (app.py line 68), modelled on the
character sequence of the file name. -/
def endsWithFit (f : String) : Bool := ".fit".data.isSuffixOf f.data

/-- Inputs of one interaction: the uploaded file's decode outcome (when an
upload is present), the sample-file checkbox, the working-directory
listing, the decode outcome of each on-disk file, and the raw-data
checkbox. -/
structure Inputs where
  uploaded : Option (Except Unit (List Msg))
  use_sample : Bool
  dirFiles : List String
  fileMsgs : String → Except Unit (List Msg)
  show_raw : Bool

/-- `main` (app.py lines 43-154): one render cycle.  Returns the outcome
together with whether `temp_upload.fit` is left on disk afterwards.  An
upload writes the fixed temporary file (line 57), loads it (line 60) and
removes it (line 64); an exception raised by the loader propagates, so the
removal is skipped on that path.  With no upload, the sample branch (lines
66-74) lists `*.fit` files in the working directory and loads the selected
(first) one, or shows the no-sample-files error. -/
def mainModel (inp : Inputs) : Outcome × Bool :=
  match inp.uploaded with
  | some decodeRes =>
      match decodeRes with
      | Except.error _ => (Outcome.crashed, true)
      | Except.ok msgs => (render (load_fit_file msgs) inp.show_raw, false)
  | none =>
      if inp.use_sample then
        match inp.dirFiles.filter endsWithFit with
        | [] => (Outcome.noSampleFiles, false)
        | f :: _ =>
            match inp.fileMsgs f with
            | Except.error _ => (Outcome.crashed, false)
            | Except.ok msgs => (render (load_fit_file msgs) inp.show_raw, false)
      else (Outcome.noData, false)

/-! ### Row building: Python dict semantics -/

theorem find?_map_overwrite (d : List Field) (k0 : String) (v : Option ℚ) (k : String) :
    (d.map (fun p => if p.1 = k0 then (k0, v) else p)).find? (fun p => p.1 = k) =
      if k = k0 then (if d.any (fun p => p.1 = k0) then some (k0, v) else none)
      else d.find? (fun p => p.1 = k) := by
  induction d with
  | nil => by_cases hk : k = k0 <;> simp [hk]
  | cons p rest ih =>
    by_cases hp : p.1 = k0
    · by_cases hk : k = k0
      · subst hk
        simp [hp, List.find?_cons_of_pos]
      · have h1 : ¬ (k0 = k) := fun e => hk e.symm
        have h2 : ¬ (p.1 = k) := fun e => hk (e.symm.trans hp)
        simp only [List.map_cons, if_pos hp, List.any_cons]
        rw [List.find?_cons_of_neg _ (by simpa using h1),
          List.find?_cons_of_neg _ (by simpa using h2), ih]
        simp [hk]
    · by_cases hpk : p.1 = k
      · have hk : ¬ (k = k0) := fun e => hp (hpk.trans e)
        simp only [List.map_cons, if_neg hp]
        rw [List.find?_cons_of_pos _ (by simpa using hpk),
          List.find?_cons_of_pos _ (by simpa using hpk), if_neg hk]
      · simp only [List.map_cons, if_neg hp, List.any_cons]
        rw [List.find?_cons_of_neg _ (by simpa using hpk),
          List.find?_cons_of_neg _ (by simpa using hpk), ih]
        by_cases hk : k = k0
        · rw [if_pos hk, if_pos hk]
          simp only [decide_eq_false hp, Bool.false_or]
        · rw [if_neg hk, if_neg hk]

theorem find?_dictInsert (d : List Field) (k0 : String) (v : Option ℚ) (k : String) :
    (dictInsert d k0 v).find? (fun p => p.1 = k) =
      if k = k0 then some (k0, v) else d.find? (fun p => p.1 = k) := by
  unfold dictInsert
  by_cases hany : (d.any (fun p => decide (p.1 = k0))) = true
  · rw [if_pos hany, find?_map_overwrite]
    by_cases hk : k = k0 <;> simp [hk, hany]
  · rw [if_neg hany, List.find?_append]
    by_cases hk : k = k0
    · have hnone : d.find? (fun p => p.1 = k) = none := by
        rw [List.find?_eq_none]
        intro x hx
        simp only [List.any_eq_true, not_exists, not_and] at hany
        have h5 := hany x hx
        simpa [hk] using h5
      have hsingle : ([((k0, v) : Field)].find? (fun p => p.1 = k)) = some (k0, v) :=
        List.find?_cons_of_pos _ (by simp [hk])
      rw [hnone, hsingle, Option.none_or, if_pos hk]
    · have h1 : ¬ (k0 = k) := fun e => hk e.symm
      have hsingle : ([((k0, v) : Field)].find? (fun p => p.1 = k)) = none := by
        rw [List.find?_cons_of_neg _ (by simpa using h1)]
        rfl
      rw [hsingle, Option.or_none, if_neg hk]

/-- The row built from a message holds, for each field name, the value of
the LAST occurrence of that name in the message (later dict assignments
overwrite earlier ones). -/
theorem buildRow_lastField (msg : Msg) (k : String) :
    (buildRow msg).find? (fun p => p.1 = k) =
      ((msg.reverse).find? (fun p => p.1 = k)).map (fun p => (k, p.2)) := by
  induction msg using List.reverseRecOn with
  | nil => simp [buildRow]
  | append_singleton msg p ih =>
    have hstep : buildRow (msg ++ [p]) = dictInsert (buildRow msg) p.1 p.2 := by
      unfold buildRow
      rw [List.foldl_append]
      rfl
    rw [hstep, find?_dictInsert, List.reverse_concat]
    by_cases hk : k = p.1
    · rw [if_pos hk, List.find?_cons_of_pos _ (by simpa using hk.symm)]
      simp [hk]
    · rw [if_neg hk, List.find?_cons_of_neg _ (by simpa using fun e => hk e.symm), ih]

/-- C10: the loader produces exactly one row per record message, in message
arrival order, and in each row a field name maps to the value of its LAST
occurrence within that message (dict insertion in message order). -/
theorem load_fit_rows (msgs : List Msg) (i : ℕ) (k : String) (hi : i < msgs.length) :
    (msgs.map buildRow).length = msgs.length ∧
    ((msgs.map buildRow).getD i []).find? (fun p => p.1 = k) =
      (((msgs.getD i []).reverse).find? (fun p => p.1 = k)).map (fun p => (k, p.2)) := by
  refine ⟨by simp, ?_⟩
  have hi2 : i < (msgs.map buildRow).length := by simpa using hi
  rw [List.getD_eq_getElem _ _ hi2, List.getD_eq_getElem _ _ hi, List.getElem_map]
  exact buildRow_lastField _ k

/-- Witness for C10, on one message in which `heart_rate` occurs twice: the
row holds the second (last) value. -/
theorem load_fit_rows_witness :
    (0 < ([[("heart_rate", some (1 : ℚ)), ("heart_rate", some 2)]] : List Msg).length) ∧
    ((([[("heart_rate", some (1 : ℚ)), ("heart_rate", some 2)]] : List Msg).map buildRow).length =
        ([[("heart_rate", some (1 : ℚ)), ("heart_rate", some 2)]] : List Msg).length ∧
      ((([[("heart_rate", some (1 : ℚ)), ("heart_rate", some 2)]] : List Msg).map
            buildRow).getD 0 []).find? (fun p => p.1 = "heart_rate") =
        ((((([[("heart_rate", some (1 : ℚ)), ("heart_rate", some 2)]] : List Msg).getD 0
            []).reverse).find? (fun p => p.1 = "heart_rate")).map (fun p => ("heart_rate", p.2)))) :=
  ⟨by decide, load_fit_rows [[("heart_rate", some 1), ("heart_rate", some 2)]] 0 "heart_rate"
    (by decide)⟩

/-- C7: when an upload is present, the shell's behaviour is a function of
the upload's decode outcome and the raw-data checkbox only: the sample
checkbox, the directory contents and the on-disk files are never consulted,
and the loaded table (if any) is the one decoded from the upload. -/
theorem upload_precedence (r : Except Unit (List Msg)) (us : Bool) (files : List String)
    (fc : String → Except Unit (List Msg)) (sr : Bool) :
    mainModel ⟨some r, us, files, fc, sr⟩ =
      match r with
      | Except.error _ => (Outcome.crashed, true)
      | Except.ok msgs => (render (load_fit_file msgs) sr, false) := rfl

/-- C8: sample mode with zero `.fit` files in the working directory yields
the "no sample files found" error outcome: no table load is attempted, no
crash, and no chart is rendered. -/
theorem no_sample_files (inp : Inputs) (h1 : inp.uploaded = none)
    (h2 : inp.use_sample = true)
    (h3 : inp.dirFiles.filter endsWithFit = []) :
    mainModel inp = (Outcome.noSampleFiles, false) := by
  obtain ⟨u, us, df, fc, sr⟩ := inp
  simp only at h1 h2 h3
  subst h1 h2
  unfold mainModel
  simp [h3]

/-- Witness for C8: a working directory holding only non-`.fit` files. -/
theorem no_sample_files_witness :
    mainModel ⟨none, true, ["a.txt", "b.csv"], (fun _ => Except.error ()), false⟩ =
      (Outcome.noSampleFiles, false) :=
  no_sample_files ⟨none, true, ["a.txt", "b.csv"], (fun _ => Except.error ()), false⟩
    rfl rfl (by decide)

/-- C2 (behaviour of the code at the failing input): an upload whose bytes
the decoder rejects makes the loader raise before line 64 runs, so
`temp_upload.fit` is left on disk — the cleanup is skipped on the failure
path, against the claim that both paths delete it. -/
theorem upload_decode_failure_leaks_temp :
    mainModel ⟨some (Except.error ()), false, [], (fun _ => Except.error ()), false⟩ =
      (Outcome.crashed, true) := rfl

/-- C3 (behaviour of the code at the failing input): a table whose
`heart_rate` column exists but is entirely missing (one record message with
`timestamp` and a `None` heart rate) passes the column-presence check of
line 76, so the code computes metrics and crashes in `int(nan)` instead of
taking the "no heart-rate data" message path. -/
theorem all_missing_heart_rate_crashes :
    mainModel ⟨some (Except.ok [[("timestamp", some 0), ("heart_rate", none)]]),
        false, [], (fun _ => Except.error ()), false⟩ =
      (Outcome.crashed, false) := rfl

/-- C6: the time-series chart takes the `timestamp` column as its x-axis
when that column is present (x-axis title "Time"), and otherwise the
synthetic zero-based positional index `0..n-1` in table row order (x-axis
title "Data Points"). -/
theorem line_chart_x_axis (df : DataFrame) :
    (buildLineChart df).1 =
      if "timestamp" ∈ df.columns then
        { xCol := "timestamp", xValues := df.getCol "timestamp", xaxisTitle := "Time" }
      else
        { xCol := "point_index",
          xValues := (List.range df.nrows).map (fun i => some (i : ℚ)),
          xaxisTitle := "Data Points" } := by
  by_cases h : "timestamp" ∈ df.columns <;> simp [buildLineChart, h]

/-- Evaluation of the calculator on the one-sample column `[60]`. -/
theorem metrics_single60 :
    calculate_metrics [some (60 : ℚ)] =
      Except.ok ⟨some 60, 60, 60, 60, 60, 60⟩ := by
  have ha : [(60 : ℚ)].min? = some 60 := rfl
  have hbx : [(60 : ℚ)].max? = some 60 := rfl
  show calculate_metrics ([(60 : ℚ)].map some) = _
  rw [calculate_metrics_map_some ha hbx]
  have hs : sortQ [(60 : ℚ)] = [60] := rfl
  norm_num [percentileLinear, ipol, hs, pyRound1, roundHalfEven, trunc, Int.floor_ofNat]

/-- C9 counterexample: for the loaded table of the single message
`{heart_rate: 60}` (no timestamp), the raw display shows a table with an
added `point_index` column — not the table the loader produced. -/
theorem raw_display_cex :
    (mainModel ⟨some (Except.ok [[("heart_rate", some 60)]]), false, [],
        (fun _ => Except.error ()), true⟩).1 =
      Outcome.rendered
        { xCol := "point_index", xValues := [some 0], xaxisTitle := "Data Points" }
        { avgHR := some 60, minHR := 60, maxHR := 60, q1 := 60, medianHR := 60, q3 := 60 }
        (some ⟨[("heart_rate", [some 60]), ("point_index", [some 0])]⟩) ∧
    (⟨[("heart_rate", [some 60]), ("point_index", [some 0])]⟩ : DataFrame) ≠
      load_fit_file [[("heart_rate", some 60)]] := by
  constructor
  · show render (load_fit_file [[("heart_rate", some 60)]]) true = _
    have hdf : load_fit_file [[("heart_rate", some 60)]] =
        (⟨[("heart_rate", [some 60])]⟩ : DataFrame) := rfl
    rw [hdf]
    unfold render
    rw [if_pos (by decide)]
    have hcol : ((buildLineChart (⟨[("heart_rate", [some 60])]⟩ : DataFrame)).2.getCol
        "heart_rate") = [some (60 : ℚ)] := rfl
    rw [hcol, metrics_single60]
    show Outcome.rendered _ _ _ = _
    have hchart : (buildLineChart (⟨[("heart_rate", [some 60])]⟩ : DataFrame)).1 =
        { xCol := "point_index", xValues := [some 0], xaxisTitle := "Data Points" } := by
      decide
    have hmut : (buildLineChart (⟨[("heart_rate", [some 60])]⟩ : DataFrame)).2 =
        (⟨[("heart_rate", [some 60]), ("point_index", [some 0])]⟩ : DataFrame) := by
      decide
    rw [hchart, hmut]
    rfl
  · decide

/-- C9 (amended): the raw display is a pass-through of the activity table
as it stands at display time: exactly the loaded table when a `timestamp`
column is present, and otherwise the loaded table with one synthetic
`point_index` column `0..n-1` added by the charting step before the
display; no other column is added, removed or changed. -/
theorem raw_display_amended (df : DataFrame) (m : Metrics)
    (hhr : "heart_rate" ∈ df.columns)
    (hm : calculate_metrics ((buildLineChart df).2.getCol "heart_rate") = Except.ok m) :
    render df true = Outcome.rendered (buildLineChart df).1 m (some ((buildLineChart df).2)) ∧
    (buildLineChart df).2 =
      (if "timestamp" ∈ df.columns then df
       else df.setCol "point_index" ((List.range df.nrows).map (fun i => some (i : ℚ)))) := by
  constructor
  · unfold render
    rw [if_pos hhr, hm]
    rfl
  · by_cases h : "timestamp" ∈ df.columns <;> simp [buildLineChart, h]

/-- Witness for C9 (amended), at the loaded table `{heart_rate: [60]}`. -/
theorem raw_display_amended_witness :
    ("heart_rate" ∈ (⟨[("heart_rate", [some (60 : ℚ)])]⟩ : DataFrame).columns) ∧
    (render (⟨[("heart_rate", [some (60 : ℚ)])]⟩ : DataFrame) true =
        Outcome.rendered (buildLineChart (⟨[("heart_rate", [some (60 : ℚ)])]⟩ : DataFrame)).1
          ⟨some 60, 60, 60, 60, 60, 60⟩
          (some ((buildLineChart (⟨[("heart_rate", [some (60 : ℚ)])]⟩ : DataFrame)).2)) ∧
      (buildLineChart (⟨[("heart_rate", [some (60 : ℚ)])]⟩ : DataFrame)).2 =
        (if "timestamp" ∈ (⟨[("heart_rate", [some (60 : ℚ)])]⟩ : DataFrame).columns then
          (⟨[("heart_rate", [some (60 : ℚ)])]⟩ : DataFrame)
         else (⟨[("heart_rate", [some (60 : ℚ)])]⟩ : DataFrame).setCol "point_index"
          ((List.range (⟨[("heart_rate", [some (60 : ℚ)])]⟩ : DataFrame).nrows).map
            (fun i => some (i : ℚ))))) :=
  ⟨by decide, raw_display_amended ⟨[("heart_rate", [some 60])]⟩ ⟨some 60, 60, 60, 60, 60, 60⟩
    (by decide) metrics_single60⟩

end FitApp
